import Mathlib

/-!
Shallow embedding of `src/power_of_thor_ep_2/power_of_thor_ep_2.cpp`.

Conventions used throughout:
* C++ `int` is modelled as `Int` (no arithmetic in this program comes close to
  overflow: coordinates live on a 40 x 18 grid and BFS labels are bounded by the
  cell count, far below `INT_MAX`).
* `Matrix<T>` cells keyed by `(column, row)` are modelled as total functions
  `Point → T` with pointwise update; every read performed by the program is
  guarded by `IsOnMap`, so the flattened-index representation is observationally
  equivalent on the guarded accesses.
* `throw std::runtime_error(msg)` is modelled by `Except.error msg` (the
  exception propagates to `main`, which aborts the run).
* `std::sort` + `front()` is modelled by an insertion sort followed by `headD`;
  `std::sort` orders by the comparator (a strict weak order) and leaves ties
  unspecified, so the facts proved below (the result is a member of the input
  and is minimal for the comparator) hold for every conforming implementation,
  and the concrete scenarios evaluated below all have a unique minimum.
* `EuclidDistance` returns `sqrtf` of an integer dot product; for the integer
  vectors representable on the grid (squared norms below 2^12) `sqrtf` is
  strictly monotone and injective, so comparing `EuclidDistance` values is the
  same as comparing the integer squared distances `EuclidSqDistance` used here.
* The BFS worklist loop is modelled with explicit fuel `W*H + 1`; each queue
  push marks a previously unvisited cell visited, so the C++ loop performs at
  most `W*H` iterations and the fuel is never exhausted on the real grids.
* `BfsState.expanded` and `BfsState.pushed` are ghost fields recording, in
  order, every cell `findToVisit` is invoked on and every cell pushed onto the
  queue; they influence nothing else and exist only so that theorems can speak
  about which cells propagated the search.
-/

namespace PowerOfThor

/-- Cell states of `GameWorldMap` (C++ `GameWorldMap::CellType`). -/
inductive CellType where
  | EMPTY
  | THOR
  | GIANT
deriving DecidableEq, Repr

/-- C++ `struct Point { int X; int Y; }`. -/
structure Point where
  X : Int
  Y : Int
deriving DecidableEq, Repr

instance : Add Point := ⟨fun lhs rhs => ⟨lhs.X + rhs.X, lhs.Y + rhs.Y⟩⟩

instance : Sub Point := ⟨fun lhs rhs => ⟨lhs.X - rhs.X, lhs.Y - rhs.Y⟩⟩

/-- C++ `INF = std::numeric_limits<int>::max()`. -/
def INF : Int := 2147483647

/-- C++ `DotProduct`. -/
def DotProduct (lhs rhs : Point) : Int :=
  lhs.X * rhs.X + lhs.Y * rhs.Y

/-- C++ `ManhattanDistance` (despite the name it is the Chebyshev distance:
`max (|dx|, |dy|)`). -/
def ManhattanDistance (lhs rhs : Point) : Int :=
  max ((lhs.X - rhs.X).natAbs : Int) ((lhs.Y - rhs.Y).natAbs : Int)

/-- Squared Euclidean distance; order-equivalent to C++ `EuclidDistance`
(see the header comment). -/
def EuclidSqDistance (lhs rhs : Point) : Int :=
  DotProduct (rhs - lhs) (rhs - lhs)

/-- C++ `GetPossibleDirections`: the 9 king-move offsets, in source order. -/
def GetPossibleDirections : List Point :=
  [⟨-1, -1⟩, ⟨-1, 0⟩, ⟨-1, 1⟩, ⟨0, -1⟩, ⟨0, 0⟩, ⟨0, 1⟩, ⟨1, -1⟩, ⟨1, 0⟩, ⟨1, 1⟩]

/-- C++ `GetSymbolicDirection`. -/
def GetSymbolicDirection (current desired : Point) : String :=
  let dir := desired - current
  let vert : String := if 0 < dir.Y then "S" else if dir.Y < 0 then "N" else ""
  let result := vert ++ (if 0 < dir.X then "E" else if dir.X < 0 then "W" else "")
  if result = "" then "WAIT" else result

/-- C++ `class Thor`. -/
structure Thor where
  Position : Point
  StrikeRadius : Int
  StrikesLeft : Int
deriving DecidableEq, Repr

/-- C++ `Thor::CanStrike`. -/
def Thor.CanStrike (player : Thor) (position : Point) : Bool :=
  decide (ManhattanDistance position player.Position ≤ player.StrikeRadius)

/-- C++ `Thor::Strike`: throws when no charges are left, otherwise decrements
`StrikesLeft`. -/
def Thor.Strike (player : Thor) : Except String Thor :=
  if player.StrikesLeft ≤ 0 then Except.error "Not enough charges!"
  else Except.ok { player with StrikesLeft := player.StrikesLeft - 1 }

/-- C++ `class Giant`. -/
structure Giant where
  Position : Point
deriving DecidableEq, Repr

/-- C++ `class GameWorldMap` (cells modelled as a total function, see header). -/
structure GameWorldMap where
  MapWidth : Int
  MapHeight : Int
  cells : Point → CellType

/-- C++ `GameWorldMap::GetEntity`. -/
def GameWorldMap.GetEntity (wm : GameWorldMap) (position : Point) : CellType :=
  wm.cells position

/-- C++ `GameWorldMap::IsOnMap`. -/
def GameWorldMap.IsOnMap (wm : GameWorldMap) (position : Point) : Bool :=
  decide ((0 ≤ position.X ∧ position.X < wm.MapWidth) ∧
          (0 ≤ position.Y ∧ position.Y < wm.MapHeight))

/-- C++ `GameWorldMap::HasGiant`. -/
def GameWorldMap.HasGiant (wm : GameWorldMap) (position : Point) : Bool :=
  decide (wm.GetEntity position = CellType.GIANT)

/-- C++ `GameWorldMap::Set` (private helper used by the placement methods). -/
def GameWorldMap.Set (wm : GameWorldMap) (position : Point) (value : CellType) :
    GameWorldMap :=
  { wm with cells := fun q => if q = position then value else wm.cells q }

/-- C++ `GameWorldMap::PlaceThor`. -/
def GameWorldMap.PlaceThor (wm : GameWorldMap) (position : Point) : GameWorldMap :=
  wm.Set position CellType.THOR

/-- C++ `GameWorldMap::PlaceGiant`. -/
def GameWorldMap.PlaceGiant (wm : GameWorldMap) (position : Point) : GameWorldMap :=
  wm.Set position CellType.GIANT

/-- C++ `FollowMostDistant::HasAdjacentGiants`: scans the 9 king offsets,
skipping out-of-map cells before the grid is read. -/
def HasAdjacentGiants (wm : GameWorldMap) (position : Point) : Bool :=
  GetPossibleDirections.any fun dir =>
    let adjacentPosition := position + dir
    wm.IsOnMap adjacentPosition && wm.HasGiant adjacentPosition

/-- C++ `FollowMostDistant::FindAllowedPositions`: the loop over the 9 king
moves with its two `continue`/filter conditions, written as map + filter. -/
def FindAllowedPositions (wm : GameWorldMap) (playerPosition : Point) : List Point :=
  (GetPossibleDirections.map fun dir => playerPosition + dir).filter fun nextPosition =>
    wm.IsOnMap nextPosition && !HasAdjacentGiants wm nextPosition

/-- State of `FollowMostDistant::FindDistancesToPoint`: the distance matrix, the
visited matrix and the `std::queue` (front = list head, pushes at the back).
`expanded` and `pushed` are ghost fields (see header). -/
structure BfsState where
  distances : Point → Int
  visited : Point → Bool
  toVisit : List Point
  expanded : List Point
  pushed : List Point

/-- C++ lambda `setDistance`: writes the distance and marks the cell visited. -/
def setDistance (s : BfsState) (position : Point) (distance : Int) : BfsState :=
  { s with
    distances := fun q => if q = position then distance else s.distances q
    visited := fun q => if q = position then true else s.visited q }

/-- Body of the loop inside the C++ lambda `findToVisit`, for one candidate
direction. -/
def findToVisitStep (wm : GameWorldMap) (position : Point) (s : BfsState)
    (candidateDir : Point) : BfsState :=
  let candidateToVisit := position + candidateDir
  if !wm.IsOnMap candidateToVisit || s.visited candidateToVisit then s
  else
    let s2 := setDistance s candidateToVisit (s.distances position + 1)
    if !HasAdjacentGiants wm candidateToVisit then
      { s2 with
        toVisit := s2.toVisit ++ [candidateToVisit]
        pushed := candidateToVisit :: s2.pushed }
    else s2

/-- C++ lambda `findToVisit` (also records `position` in the ghost `expanded`
trace). -/
def findToVisit (wm : GameWorldMap) (s : BfsState) (position : Point) : BfsState :=
  GetPossibleDirections.foldl (findToVisitStep wm position)
    { s with expanded := position :: s.expanded }

/-- One iteration of the initialization loop of `FindDistancesToPoint`: label
the unvisited in-bounds neighbor 1 and immediately run `findToVisit` on it
(exactly the interleaving of the C++ loop). -/
def bfsInitStep (wm : GameWorldMap) (point : Point) (s : BfsState) (dir : Point) :
    BfsState :=
  let nextPosition := point + dir
  if !wm.IsOnMap nextPosition || s.visited nextPosition then s
  else findToVisit wm (setDistance s nextPosition 1) nextPosition

/-- The initialization part of `FindDistancesToPoint`: label the target 0, then
run the initialization loop over the 9 directions. -/
def bfsInit (wm : GameWorldMap) (point : Point) : BfsState :=
  let s0 : BfsState :=
    { distances := fun _ => INF
      visited := fun _ => false
      toVisit := []
      expanded := []
      pushed := [] }
  let s1 := setDistance s0 point 0
  GetPossibleDirections.foldl (bfsInitStep wm point) s1

/-- The C++ `while (!toVisit.empty())` loop, fueled.  One iteration expands the
queue front with `findToVisit` and then pops it (pushes go to the back, so the
front is unchanged by the expansion). -/
def bfsLoop (wm : GameWorldMap) : Nat → BfsState → BfsState
  | 0, s => s
  | fuel + 1, s =>
    match s.toVisit with
    | [] => s
    | next :: _ =>
      let s2 := findToVisit wm s next
      bfsLoop wm fuel { s2 with toVisit := s2.toVisit.tail }

/-- C++ `FollowMostDistant::FindDistancesToPoint`.  The fuel `W*H + 1` dominates
the C++ loop's iteration count (every push marks an unvisited cell visited, so
there are at most `W*H` pushes, hence at most `W*H` iterations). -/
def FindDistancesToPoint (wm : GameWorldMap) (point : Point) : BfsState :=
  bfsLoop wm (wm.MapWidth.toNat * wm.MapHeight.toNat + 1) (bfsInit wm point)

/-- Insertion of one element into a list sorted by the strict comparator `lt`
(the element goes before the first entry not strictly below it). -/
def insertBy {α : Type} (lt : α → α → Bool) (x : α) : List α → List α
  | [] => [x]
  | y :: ys => if lt y x then y :: insertBy lt x ys else x :: y :: ys

/-- Comparison sort modelling `std::sort` (see the header comment on ties). -/
def sortBy {α : Type} (lt : α → α → Bool) : List α → List α
  | [] => []
  | x :: xs => insertBy lt x (sortBy lt xs)

/-- The comparator of the `distances.Get(player) != INF` branch of
`FindNextPosition`: BFS label first, squared Euclidean distance to the giant as
tie-break. -/
def ltFin (distances : Point → Int) (giantPosition : Point) (lhs rhs : Point) : Bool :=
  let lhsDistance := distances lhs
  let rhsDistance := distances rhs
  if lhsDistance = rhsDistance then
    decide (EuclidSqDistance lhs giantPosition < EuclidSqDistance rhs giantPosition)
  else
    decide (lhsDistance < rhsDistance)

/-- The comparator of the unreachable (`== INF`) branch of `FindNextPosition`:
raw Chebyshev distance to the giant. -/
def ltCheb (giantPosition : Point) (lhs rhs : Point) : Bool :=
  decide (ManhattanDistance lhs giantPosition < ManhattanDistance rhs giantPosition)

/-- C++ `FollowMostDistant::FindNextPosition` (`front()` of the empty list is
undefined behaviour in C++; both callers guarantee a non-empty list, and the
`headD` default is irrelevant under that guarantee). -/
def FindNextPosition (wm : GameWorldMap) (playerPosition giantPosition : Point)
    (allowedPositions : List Point) : Point :=
  let distances := (FindDistancesToPoint wm giantPosition).distances
  if distances playerPosition ≠ INF then
    (sortBy (ltFin distances giantPosition) allowedPositions).headD ⟨0, 0⟩
  else
    (sortBy (ltCheb giantPosition) allowedPositions).headD ⟨0, 0⟩

/-- The loop of `FollowMostDistant::FindMostDistantGiant`, returning the final
`(maxIdx, maxDistance)` pair.  `maxDistance` starts at 0 and is replaced only on
a strictly greater distance. -/
def findMostDistantAuxP (playerPosition : Point) :
    List Giant → Nat → Nat → Int → Nat × Int
  | [], _, maxIdx, maxDistance => (maxIdx, maxDistance)
  | giant :: rest, i, maxIdx, maxDistance =>
    let distanceToGiant := ManhattanDistance giant.Position playerPosition
    if maxDistance < distanceToGiant then
      findMostDistantAuxP playerPosition rest (i + 1) i distanceToGiant
    else
      findMostDistantAuxP playerPosition rest (i + 1) maxIdx maxDistance

/-- C++ `FollowMostDistant::FindMostDistantGiant` (indexing an empty list is
undefined behaviour in C++; the caller guarantees a non-empty list). -/
def FindMostDistantGiant (giants : List Giant) (playerPosition : Point) : Giant :=
  giants.getD (findMostDistantAuxP playerPosition giants 0 0 0).1 ⟨⟨0, 0⟩⟩

/-- C++ `FollowMostDistant::MoveThor`: computes the token and moves the player. -/
def MoveThor (player : Thor) (nextPosition : Point) : String × Thor :=
  (GetSymbolicDirection player.Position nextPosition,
   { player with Position := nextPosition })

/-- C++ `FollowMostDistant::MakeDecision`: returns the emitted token together
with the updated `Thor`, or the propagated exception. -/
def MakeDecision (wm : GameWorldMap) (giants : List Giant) (player : Thor) :
    Except String (String × Thor) :=
  if giants = [] then Except.ok ("WAIT", player)
  else
    let allowedPositions := FindAllowedPositions wm player.Position
    if allowedPositions = [] then player.Strike.map fun p => ("STRIKE", p)
    else
      let mostDistantGiant := FindMostDistantGiant giants player.Position
      if player.CanStrike mostDistantGiant.Position then
        player.Strike.map fun p => ("STRIKE", p)
      else
        let nextPosition :=
          FindNextPosition wm player.Position mostDistantGiant.Position
            allowedPositions
        Except.ok (MoveThor player nextPosition)

/-- Decidable equality for `Except`, so that concrete runs of `MakeDecision`
can be checked by evaluation. -/
instance {ε α : Type} [DecidableEq ε] [DecidableEq α] : DecidableEq (Except ε α) :=
  fun x y =>
    match x, y with
    | Except.ok a, Except.ok b => decidable_of_iff (a = b) (by simp)
    | Except.error e, Except.error f => decidable_of_iff (e = f) (by simp)
    | Except.ok _, Except.error _ => isFalse (by simp)
    | Except.error _, Except.ok _ => isFalse (by simp)

/-- A grid with every cell empty (`GameWorldMap`'s constructor). -/
def emptyMap (w h : Int) : GameWorldMap :=
  { MapWidth := w, MapHeight := h, cells := fun _ => CellType.EMPTY }

/-- The 5 x 5 end-to-end scenario of the spec: Thor at (2,2), one giant at
(0,0), placed the way `World::FillWorldMap` places them. -/
def wm5 : GameWorldMap :=
  ((emptyMap 5 5).PlaceThor ⟨2, 2⟩).PlaceGiant ⟨0, 0⟩

/-- Thor of the 5 x 5 scenario: interaction radius 1, 2 strikes. -/
def thor5 : Thor := { Position := ⟨2, 2⟩, StrikeRadius := 1, StrikesLeft := 2 }

/-- Hazard list of the 5 x 5 scenario. -/
def giants5 : List Giant := [⟨⟨0, 0⟩⟩]

/-- A 3 x 3 grid with a giant at the center: every cell of the grid is within
Chebyshev distance 1 of the giant, so the candidate set of any agent on it is
empty (boxed-in scenario). -/
def wmBox : GameWorldMap :=
  ((emptyMap 3 3).PlaceThor ⟨1, 1⟩).PlaceGiant ⟨1, 1⟩

/-- Thor of the boxed-in scenario (2 strikes). -/
def thorBox : Thor := { Position := ⟨1, 1⟩, StrikeRadius := 4, StrikesLeft := 2 }

/-- Hazard list of the boxed-in scenario. -/
def giantsBox : List Giant := [⟨⟨1, 1⟩⟩]

/-- Hazards at Chebyshev distances [3, 5, 5, 2] from the origin, in that order
(the tie-break scenario of the spec). -/
def giants4 : List Giant := [⟨⟨3, 0⟩⟩, ⟨⟨5, 0⟩⟩, ⟨⟨0, 5⟩⟩, ⟨⟨2, 0⟩⟩]

/-! ## Point and direction lemmas -/

@[simp]
theorem Point.add_def (a b : Point) : a + b = ⟨a.X + b.X, a.Y + b.Y⟩ := rfl

@[simp]
theorem Point.sub_def (a b : Point) : a - b = ⟨a.X - b.X, a.Y - b.Y⟩ := rfl

theorem manhattanDistance_nonneg (a b : Point) : 0 ≤ ManhattanDistance a b := by
  unfold ManhattanDistance
  exact le_max_of_le_left (Int.natCast_nonneg _)

theorem mem_dirs_iff (d : Point) :
    d ∈ GetPossibleDirections ↔
      (-1 ≤ d.X ∧ d.X ≤ 1) ∧ (-1 ≤ d.Y ∧ d.Y ≤ 1) := by
  obtain ⟨x, y⟩ := d
  simp only [GetPossibleDirections, List.mem_cons, List.not_mem_nil, or_false,
    Point.mk.injEq]
  constructor
  · intro h
    omega
  · intro h
    omega

/-- A cell is within Chebyshev distance 1 of `p` exactly when it is `p` plus one
of the 9 king-move offsets. -/
theorem cheb_le_one_iff (p q : Point) :
    ManhattanDistance p q ≤ 1 ↔ ∃ dir ∈ GetPossibleDirections, q = p + dir := by
  constructor
  · intro h
    refine ⟨q - p, ?_, ?_⟩
    · rw [mem_dirs_iff]
      simp only [ManhattanDistance, max_le_iff, Point.sub_def] at h ⊢
      omega
    · obtain ⟨x, y⟩ := p
      obtain ⟨a, b⟩ := q
      simp only [Point.sub_def, Point.add_def, Point.mk.injEq]
      omega
  · intro h
    obtain ⟨dir, hmem, rfl⟩ := h
    rw [mem_dirs_iff] at hmem
    simp only [ManhattanDistance, max_le_iff, Point.add_def]
    omega

/-! ## Sorting lemmas -/

theorem length_insertBy {α : Type} (lt : α → α → Bool) (x : α) (l : List α) :
    (insertBy lt x l).length = l.length + 1 := by
  induction l with
  | nil => rfl
  | cons y ys ih =>
    simp only [insertBy]
    split
    · simp [ih]
    · simp

theorem length_sortBy {α : Type} (lt : α → α → Bool) (l : List α) :
    (sortBy lt l).length = l.length := by
  induction l with
  | nil => rfl
  | cons x xs ih => simp [sortBy, length_insertBy, ih]

theorem mem_insertBy {α : Type} (lt : α → α → Bool) (x z : α) (l : List α) :
    z ∈ insertBy lt x l ↔ z = x ∨ z ∈ l := by
  induction l with
  | nil => simp [insertBy]
  | cons y ys ih =>
    simp only [insertBy]
    split
    · simp only [List.mem_cons, ih]
      tauto
    · simp [List.mem_cons]

theorem mem_sortBy {α : Type} (lt : α → α → Bool) (z : α) (l : List α) :
    z ∈ sortBy lt l ↔ z ∈ l := by
  induction l with
  | nil => simp [sortBy]
  | cons x xs ih => simp [sortBy, mem_insertBy, ih]

theorem headD_mem {α : Type} (l : List α) (d : α) (h : l ≠ []) : l.headD d ∈ l := by
  cases l with
  | nil => exact absurd rfl h
  | cons x xs => simp

theorem lt_irrefl_of_asymm {α : Type} (lt : α → α → Bool)
    (hasymm : ∀ a b, lt a b = true → lt b a = false) (a : α) : lt a a = false := by
  cases h : lt a a with
  | false => rfl
  | true => exact absurd (hasymm a a h) (by simp [h])

/-- The head of a comparator-sorted list is minimal: no element of the input is
strictly below it.  `lt` must be asymmetric, and `not lt` must be transitive
(both hold for every strict weak order, in particular for the two comparators
used by `FindNextPosition`). -/
theorem sortBy_headD_min {α : Type} (lt : α → α → Bool)
    (hasymm : ∀ a b, lt a b = true → lt b a = false)
    (htrans : ∀ a b c, lt a b = false → lt b c = false → lt a c = false)
    (l : List α) (d : α) (z : α) (hz : z ∈ l) :
    lt z ((sortBy lt l).headD d) = false := by
  induction l with
  | nil => cases hz
  | cons x xs ih =>
    simp only [sortBy]
    cases hs : sortBy lt xs with
    | nil =>
      have hxs : xs = [] := by
        have := length_sortBy lt xs
        rw [hs] at this
        exact List.length_eq_zero.mp this.symm
      subst hxs
      simp only [insertBy, List.headD_cons]
      rcases List.mem_cons.mp hz with rfl | h
      · exact lt_irrefl_of_asymm lt hasymm z
      · cases h
    | cons y ys =>
      simp only [insertBy]
      split
      · rename_i hlt
        simp only [List.headD_cons]
        rcases List.mem_cons.mp hz with rfl | h
        · exact hasymm y z hlt
        · have := ih h
          rw [hs] at this
          exact this
      · rename_i hlt
        simp only [List.headD_cons]
        rcases List.mem_cons.mp hz with rfl | h
        · exact lt_irrefl_of_asymm lt hasymm z
        · have hy : lt z y = false := by
            have := ih h
            rw [hs] at this
            exact this
          exact htrans z y x hy (Bool.not_eq_true _ ▸ by simpa using hlt)

theorem ltCheb_asymm (g : Point) :
    ∀ a b, ltCheb g a b = true → ltCheb g b a = false := by
  intro a b h
  simp only [ltCheb, decide_eq_true_eq] at h
  simp only [ltCheb, decide_eq_false_iff_not]
  omega

theorem ltCheb_negtrans (g : Point) :
    ∀ a b c, ltCheb g a b = false → ltCheb g b c = false → ltCheb g a c = false := by
  intro a b c h1 h2
  simp only [ltCheb, decide_eq_false_iff_not] at h1 h2 ⊢
  omega

theorem ltFin_asymm (D : Point → Int) (g : Point) :
    ∀ a b, ltFin D g a b = true → ltFin D g b a = false := by
  intro a b h
  simp only [ltFin] at h ⊢
  split_ifs at h ⊢ <;>
    simp only [decide_eq_true_eq] at h <;>
    simp only [decide_eq_false_iff_not] <;> omega

theorem ltFin_negtrans (D : Point → Int) (g : Point) :
    ∀ a b c, ltFin D g a b = false → ltFin D g b c = false → ltFin D g a c = false := by
  intro a b c h1 h2
  simp only [ltFin] at h1 h2 ⊢
  split_ifs at h1 h2 ⊢ <;>
    simp only [decide_eq_false_iff_not] at h1 h2 ⊢ <;> omega

/-! ## Threat check and candidate set lemmas -/

/-- The threat check holds exactly when some in-bounds cell within Chebyshev
distance 1 of the query (the query cell included) holds a hazard. -/
theorem hasAdjacentGiants_iff (wm : GameWorldMap) (p : Point) :
    HasAdjacentGiants wm p = true ↔
      ∃ q, wm.IsOnMap q = true ∧ wm.HasGiant q = true ∧ ManhattanDistance p q ≤ 1 := by
  simp only [HasAdjacentGiants, List.any_eq_true, Bool.and_eq_true]
  constructor
  · intro h
    obtain ⟨dir, hdir, hmap, hg⟩ := h
    exact ⟨p + dir, hmap, hg, (cheb_le_one_iff p (p + dir)).mpr ⟨dir, hdir, rfl⟩⟩
  · intro h
    obtain ⟨q, hmap, hg, hle⟩ := h
    obtain ⟨dir, hdir, rfl⟩ := (cheb_le_one_iff p q).mp hle
    exact ⟨dir, hdir, hmap, hg⟩

theorem mem_FindAllowedPositions (wm : GameWorldMap) (pos p : Point) :
    p ∈ FindAllowedPositions wm pos ↔
      (∃ dir ∈ GetPossibleDirections, p = pos + dir) ∧
        wm.IsOnMap p = true ∧ HasAdjacentGiants wm p = false := by
  simp only [FindAllowedPositions, List.mem_filter, List.mem_map,
    Bool.and_eq_true, Bool.not_eq_true']
  constructor
  · intro h
    obtain ⟨⟨dir, hdir, heq⟩, hmap, hsafe⟩ := h
    exact ⟨⟨dir, hdir, heq.symm⟩, hmap, hsafe⟩
  · intro h
    obtain ⟨⟨dir, hdir, heq⟩, hmap, hsafe⟩ := h
    exact ⟨⟨dir, hdir, heq.symm⟩, hmap, hsafe⟩

theorem findNextPosition_mem (wm : GameWorldMap) (pp gp : Point)
    (allowed : List Point) (h : allowed ≠ []) :
    FindNextPosition wm pp gp allowed ∈ allowed := by
  have hne : ∀ lt : Point → Point → Bool, sortBy lt allowed ≠ [] := by
    intro lt hnil
    apply h
    have hlen := length_sortBy lt allowed
    rw [hnil] at hlen
    exact List.length_eq_zero.mp hlen.symm
  unfold FindNextPosition
  dsimp only
  split
  · exact (mem_sortBy _ _ _).mp (headD_mem _ _ (hne _))
  · exact (mem_sortBy _ _ _).mp (headD_mem _ _ (hne _))

/-! ## BFS lemmas -/

theorem setDistance_visited_self (s : BfsState) (p : Point) (d : Int) :
    (setDistance s p d).visited p = true := by
  simp [setDistance]

theorem setDistance_distances_self (s : BfsState) (p : Point) (d : Int) :
    (setDistance s p d).distances p = d := by
  simp [setDistance]

theorem setDistance_untouched (s : BfsState) (p : Point) (d : Int) (x : Point)
    (h : x ≠ p) :
    (setDistance s p d).visited x = s.visited x ∧
      (setDistance s p d).distances x = s.distances x := by
  simp [setDistance, h]

theorem guard_false_elim {a b : Bool} (h : ¬((!a || b) = true)) :
    a = true ∧ b = false := by
  cases a <;> cases b <;> simp_all

theorem findToVisitStep_expanded (wm : GameWorldMap) (p : Point) (s : BfsState)
    (dir : Point) : (findToVisitStep wm p s dir).expanded = s.expanded := by
  unfold findToVisitStep
  dsimp only
  split
  · rfl
  · split
    · rfl
    · rfl

theorem findToVisitStep_untouched (wm : GameWorldMap) (p : Point) (s : BfsState)
    (dir : Point) (x : Point) (hne : x ≠ p + dir) :
    (findToVisitStep wm p s dir).visited x = s.visited x ∧
      (findToVisitStep wm p s dir).distances x = s.distances x := by
  unfold findToVisitStep
  dsimp only
  split
  · exact ⟨rfl, rfl⟩
  · split
    · exact setDistance_untouched s (p + dir) _ x hne
    · exact setDistance_untouched s (p + dir) _ x hne

theorem findToVisitStep_visited_stable (wm : GameWorldMap) (p : Point)
    (s : BfsState) (dir : Point) (x : Point) (hx : s.visited x = true) :
    (findToVisitStep wm p s dir).visited x = true ∧
      (findToVisitStep wm p s dir).distances x = s.distances x := by
  by_cases hne : x = p + dir
  · subst hne
    unfold findToVisitStep
    dsimp only
    split
    · exact ⟨hx, rfl⟩
    · rename_i hguard
      have h2 := (guard_false_elim hguard).2
      rw [hx] at h2
      simp at h2
  · obtain ⟨h1, h2⟩ := findToVisitStep_untouched wm p s dir x hne
    exact ⟨h1.trans hx, h2⟩

theorem findToVisitStep_toVisit (wm : GameWorldMap) (p : Point) (s : BfsState)
    (dir : Point) :
    (findToVisitStep wm p s dir).toVisit = s.toVisit ∨
      ((findToVisitStep wm p s dir).toVisit = s.toVisit ++ [p + dir] ∧
        HasAdjacentGiants wm (p + dir) = false) := by
  unfold findToVisitStep
  dsimp only
  split
  · exact Or.inl rfl
  · split
    · rename_i hsafe
      exact Or.inr ⟨rfl, by simpa using hsafe⟩
    · exact Or.inl rfl

theorem findToVisitStep_discover (wm : GameWorldMap) (p : Point) (s : BfsState)
    (dir : Point) (hmap : wm.IsOnMap (p + dir) = true)
    (hunvis : s.visited (p + dir) = false) :
    (findToVisitStep wm p s dir).visited (p + dir) = true ∧
      (findToVisitStep wm p s dir).distances (p + dir) = s.distances p + 1 := by
  unfold findToVisitStep
  dsimp only
  have hguard : (!wm.IsOnMap (p + dir) || s.visited (p + dir)) = false := by
    rw [hmap, hunvis]
    rfl
  rw [hguard]
  simp only [Bool.false_eq_true, if_false]
  split
  · constructor
    · show (setDistance s (p + dir) (s.distances p + 1)).visited (p + dir) = true
      exact setDistance_visited_self _ _ _
    · show (setDistance s (p + dir) (s.distances p + 1)).distances (p + dir) =
        s.distances p + 1
      exact setDistance_distances_self _ _ _
  · constructor
    · show (setDistance s (p + dir) (s.distances p + 1)).visited (p + dir) = true
      exact setDistance_visited_self _ _ _
    · show (setDistance s (p + dir) (s.distances p + 1)).distances (p + dir) =
        s.distances p + 1
      exact setDistance_distances_self _ _ _

theorem foldl_step_expanded (wm : GameWorldMap) (p : Point) (ds : List Point) :
    ∀ s : BfsState, (ds.foldl (findToVisitStep wm p) s).expanded = s.expanded := by
  induction ds with
  | nil => intro s; rfl
  | cons d ds ih =>
    intro s
    rw [List.foldl_cons, ih, findToVisitStep_expanded]

theorem foldl_step_toVisit_mem (wm : GameWorldMap) (p : Point) (ds : List Point) :
    ∀ (s : BfsState) (q : Point), q ∈ (ds.foldl (findToVisitStep wm p) s).toVisit →
      q ∈ s.toVisit ∨ HasAdjacentGiants wm q = false := by
  induction ds with
  | nil => intro s q hq; exact Or.inl hq
  | cons d ds ih =>
    intro s q hq
    rw [List.foldl_cons] at hq
    rcases ih _ _ hq with h | h
    · rcases findToVisitStep_toVisit wm p s d with he | ⟨he, hc⟩
      · rw [he] at h
        exact Or.inl h
      · rw [he] at h
        rcases List.mem_append.mp h with h2 | h2
        · exact Or.inl h2
        · have : q = p + d := by simpa using h2
          subst this
          exact Or.inr hc
    · exact Or.inr h

theorem foldl_step_visited_stable (wm : GameWorldMap) (p : Point) (ds : List Point) :
    ∀ (s : BfsState) (x : Point), s.visited x = true →
      (ds.foldl (findToVisitStep wm p) s).visited x = true ∧
        (ds.foldl (findToVisitStep wm p) s).distances x = s.distances x := by
  induction ds with
  | nil => intro s x hx; exact ⟨hx, rfl⟩
  | cons d ds ih =>
    intro s x hx
    rw [List.foldl_cons]
    obtain ⟨h1, h2⟩ := findToVisitStep_visited_stable wm p s d x hx
    obtain ⟨h3, h4⟩ := ih _ _ h1
    exact ⟨h3, h4.trans h2⟩

theorem foldl_step_threatened_toVisit (wm : GameWorldMap) (p : Point)
    (ds : List Point) :
    ∀ (s : BfsState) (c : Point), HasAdjacentGiants wm c = true →
      (c ∈ (ds.foldl (findToVisitStep wm p) s).toVisit ↔ c ∈ s.toVisit) := by
  induction ds with
  | nil => intro s c _; exact Iff.rfl
  | cons d ds ih =>
    intro s c hc
    rw [List.foldl_cons, ih _ _ hc]
    rcases findToVisitStep_toVisit wm p s d with he | ⟨he, hsafe⟩
    · rw [he]
    · rw [he]
      constructor
      · intro h
        rcases List.mem_append.mp h with h2 | h2
        · exact h2
        · have : c = p + d := by simpa using h2
          rw [this] at hc
          rw [hc] at hsafe
          cases hsafe
      · intro h
        exact List.mem_append_left _ h

theorem foldl_step_discover (wm : GameWorldMap) (p : Point) (ds : List Point) :
    ∀ (s : BfsState) (dir : Point), s.visited p = true → dir ∈ ds →
      wm.IsOnMap (p + dir) = true → s.visited (p + dir) = false →
      (ds.foldl (findToVisitStep wm p) s).visited (p + dir) = true ∧
        (ds.foldl (findToVisitStep wm p) s).distances (p + dir) =
          s.distances p + 1 := by
  induction ds with
  | nil => intro s dir _ hdir; cases hdir
  | cons d ds ih =>
    intro s dir hp hdir hmap hunvis
    rw [List.foldl_cons]
    by_cases he : p + d = p + dir
    · obtain ⟨h1, h2⟩ := findToVisitStep_discover wm p s d
        (he ▸ hmap) (he ▸ hunvis)
      obtain ⟨h3, h4⟩ := foldl_step_visited_stable wm p ds _ _ (he ▸ h1)
      refine ⟨h3, ?_⟩
      rw [h4, ← he, h2]
    · have hdir2 : dir ∈ ds := by
        rcases List.mem_cons.mp hdir with rfl | h2
        · exact absurd rfl he
        · exact h2
      obtain ⟨hv, _⟩ := findToVisitStep_untouched wm p s d (p + dir)
        (fun h2 => he h2.symm)
      obtain ⟨hp1, hp2⟩ := findToVisitStep_visited_stable wm p s d p hp
      obtain ⟨c1, c2⟩ := ih _ _ hp1 hdir2 hmap (hv.trans hunvis)
      exact ⟨c1, by rw [c2, hp2]⟩

theorem findToVisit_expanded (wm : GameWorldMap) (s : BfsState) (p : Point) :
    (findToVisit wm s p).expanded = p :: s.expanded := by
  unfold findToVisit
  rw [foldl_step_expanded]

theorem findToVisit_toVisit_mem (wm : GameWorldMap) (s : BfsState) (p q : Point)
    (hq : q ∈ (findToVisit wm s p).toVisit) :
    q ∈ s.toVisit ∨ HasAdjacentGiants wm q = false := by
  unfold findToVisit at hq
  have h2 := foldl_step_toVisit_mem wm p GetPossibleDirections
    { s with expanded := p :: s.expanded } q hq
  exact h2

/-- A discovered cell is enqueued only if it is not threatened: a threatened
cell is in the queue after `findToVisit` exactly when it already was before. -/
theorem findToVisit_threatened_toVisit (wm : GameWorldMap) (s : BfsState)
    (p c : Point) (hc : HasAdjacentGiants wm c = true) :
    (c ∈ (findToVisit wm s p).toVisit ↔ c ∈ s.toVisit) := by
  unfold findToVisit
  exact foldl_step_threatened_toVisit wm p _ _ _ hc

/-- Every newly discovered in-bounds unvisited neighbor of the expanded cell is
labeled with the expanded cell's distance plus 1 and marked visited,
unconditionally (no threat test guards this step). -/
theorem findToVisit_discover (wm : GameWorldMap) (s : BfsState) (p dir : Point)
    (hp : s.visited p = true) (hdir : dir ∈ GetPossibleDirections)
    (hmap : wm.IsOnMap (p + dir) = true) (hunvis : s.visited (p + dir) = false) :
    (findToVisit wm s p).visited (p + dir) = true ∧
      (findToVisit wm s p).distances (p + dir) = s.distances p + 1 := by
  unfold findToVisit
  exact foldl_step_discover wm p _ _ _ hp hdir hmap hunvis

theorem cheb_add_dir (t d : Point) (hd : d ∈ GetPossibleDirections) :
    ManhattanDistance (t + d) t ≤ 1 := by
  rw [mem_dirs_iff] at hd
  simp only [ManhattanDistance, Point.add_def, max_le_iff]
  omega

theorem bfsInit_inv (wm : GameWorldMap) (t : Point) (ds : List Point)
    (hds : ∀ d ∈ ds, ManhattanDistance (t + d) t ≤ 1) :
    ∀ s : BfsState,
      (∀ q ∈ s.toVisit, HasAdjacentGiants wm q = false) →
      (∀ x ∈ s.expanded, ManhattanDistance x t ≤ 1) →
      (∀ q ∈ (ds.foldl (bfsInitStep wm t) s).toVisit,
          HasAdjacentGiants wm q = false) ∧
        (∀ x ∈ (ds.foldl (bfsInitStep wm t) s).expanded,
          ManhattanDistance x t ≤ 1) := by
  induction ds with
  | nil => intro s h1 h2; exact ⟨h1, h2⟩
  | cons d ds ih =>
    intro s h1 h2
    rw [List.foldl_cons]
    have hd := hds d (List.mem_cons_self d ds)
    have hds2 : ∀ d2 ∈ ds, ManhattanDistance (t + d2) t ≤ 1 := fun d2 hd2 =>
      hds d2 (List.mem_cons_of_mem d hd2)
    apply ih hds2
    · intro q hq
      unfold bfsInitStep at hq
      dsimp only at hq
      split at hq
      · exact h1 q hq
      · rcases findToVisit_toVisit_mem wm _ _ q hq with h | h
        · exact h1 q h
        · exact h
    · intro x hx
      unfold bfsInitStep at hx
      dsimp only at hx
      split at hx
      · exact h2 x hx
      · rw [findToVisit_expanded] at hx
        rcases List.mem_cons.mp hx with rfl | h
        · exact hd
        · exact h2 x h

theorem bfsInit_spec (wm : GameWorldMap) (t : Point) :
    (∀ q ∈ (bfsInit wm t).toVisit, HasAdjacentGiants wm q = false) ∧
      (∀ x ∈ (bfsInit wm t).expanded, ManhattanDistance x t ≤ 1) := by
  unfold bfsInit
  apply bfsInit_inv wm t GetPossibleDirections (fun d hd => cheb_add_dir t d hd)
  · intro q hq
    cases hq
  · intro x hx
    cases hx

theorem bfsLoop_succ_nil (wm : GameWorldMap) (n : Nat) (s : BfsState)
    (h : s.toVisit = []) : bfsLoop wm (n + 1) s = s := by
  unfold bfsLoop
  rw [h]

theorem bfsLoop_succ_cons (wm : GameWorldMap) (n : Nat) (s : BfsState)
    (next : Point) (rest : List Point) (h : s.toVisit = next :: rest) :
    bfsLoop wm (n + 1) s =
      bfsLoop wm n
        { findToVisit wm s next with toVisit := (findToVisit wm s next).toVisit.tail } := by
  show (match s.toVisit with
    | [] => s
    | next2 :: _ =>
      bfsLoop wm n
        { findToVisit wm s next2 with
            toVisit := (findToVisit wm s next2).toVisit.tail }) = _
  rw [h]

theorem bfsLoop_expanded_inv (wm : GameWorldMap) (Q : Point → Prop)
    (hQ : ∀ q, HasAdjacentGiants wm q = false → Q q) :
    ∀ (fuel : Nat) (s : BfsState),
      (∀ q ∈ s.toVisit, HasAdjacentGiants wm q = false) →
      (∀ x ∈ s.expanded, Q x) →
      ∀ x ∈ (bfsLoop wm fuel s).expanded, Q x := by
  intro fuel
  induction fuel with
  | zero => intro s _ h2 x hx; exact h2 x hx
  | succ n ih =>
    intro s h1 h2 x hx
    cases hq : s.toVisit with
    | nil =>
      rw [bfsLoop_succ_nil wm n s hq] at hx
      exact h2 x hx
    | cons next rest =>
      rw [bfsLoop_succ_cons wm n s next rest hq] at hx
      apply ih _ _ _ _ hx
      · intro q hq2
        have hq3 : q ∈ (findToVisit wm s next).toVisit :=
          List.mem_of_mem_tail hq2
        rcases findToVisit_toVisit_mem wm s next q hq3 with h | h
        · exact h1 q h
        · exact h
      · intro y hy
        have hnext : HasAdjacentGiants wm next = false := by
          apply h1 next
          rw [hq]
          exact List.mem_cons_self _ _
        have hexp : (findToVisit wm s next).expanded = next :: s.expanded :=
          findToVisit_expanded wm s next
        rw [hexp] at hy
        rcases List.mem_cons.mp hy with rfl | h
        · exact hQ _ hnext
        · exact h2 y h

/-- Every cell the BFS ever expands is either unthreatened (it came through the
queue, whose entries are all unthreatened) or an immediate neighbor of the
target (expanded directly by the initialization loop). -/
theorem findDistances_expanded (wm : GameWorldMap) (t : Point) :
    ∀ x ∈ (FindDistancesToPoint wm t).expanded,
      HasAdjacentGiants wm x = false ∨ ManhattanDistance x t ≤ 1 := by
  unfold FindDistancesToPoint
  have hinit := bfsInit_spec wm t
  exact bfsLoop_expanded_inv wm
    (fun x => HasAdjacentGiants wm x = false ∨ ManhattanDistance x t ≤ 1)
    (fun q h => Or.inl h) _ _ hinit.1 (fun x hx => Or.inr (hinit.2 x hx))

/-! ## Target selector lemmas -/

/-- Invariant of the `FindMostDistantGiant` loop: either no element beats the
incoming maximum (and the incoming index/maximum are returned), or the returned
index points at an element of the scanned list that strictly beats the incoming
maximum, is at least as distant as every scanned element, and strictly more
distant than every earlier scanned element (strict replacement means the first
occurrence of the maximum wins). -/
theorem findMostDistantAuxP_spec (pos : Point) (gs : List Giant) :
    ∀ (i maxIdx : Nat) (maxD : Int),
      ((findMostDistantAuxP pos gs i maxIdx maxD).1 = maxIdx ∧
        (findMostDistantAuxP pos gs i maxIdx maxD).2 = maxD ∧
        ∀ g ∈ gs, ManhattanDistance g.Position pos ≤ maxD) ∨
      (∃ j, j < gs.length ∧
        (findMostDistantAuxP pos gs i maxIdx maxD).1 = i + j ∧
        (findMostDistantAuxP pos gs i maxIdx maxD).2 =
          ManhattanDistance (gs.getD j ⟨⟨0, 0⟩⟩).Position pos ∧
        maxD < (findMostDistantAuxP pos gs i maxIdx maxD).2 ∧
        (∀ g ∈ gs, ManhattanDistance g.Position pos ≤
          (findMostDistantAuxP pos gs i maxIdx maxD).2) ∧
        (∀ k, k < j →
          ManhattanDistance (gs.getD k ⟨⟨0, 0⟩⟩).Position pos <
            (findMostDistantAuxP pos gs i maxIdx maxD).2)) := by
  induction gs with
  | nil =>
    intro i maxIdx maxD
    left
    exact ⟨rfl, rfl, by simp⟩
  | cons g gs ih =>
    intro i maxIdx maxD
    simp only [findMostDistantAuxP]
    split
    · rename_i hbeat
      rcases ih (i + 1) i (ManhattanDistance g.Position pos) with
        ⟨h1, h2, h3⟩ | ⟨j, hj, h1, h2, h3, h4, h5⟩
      · right
        refine ⟨0, by simp, ?_, ?_, ?_, ?_, ?_⟩
        · simpa using h1
        · simpa using h2
        · rw [h2]
          exact hbeat
        · intro g2 hg2
          rcases List.mem_cons.mp hg2 with rfl | hmem
          · rw [h2]
          · exact (h3 g2 hmem).trans (le_of_eq h2.symm)
        · intro k hk
          omega
      · right
        refine ⟨j + 1, by simpa using hj, ?_, ?_, ?_, ?_, ?_⟩
        · rw [h1]
          omega
        · simpa using h2
        · exact lt_trans hbeat h3
        · intro g2 hg2
          rcases List.mem_cons.mp hg2 with rfl | hmem
          · exact le_of_lt h3
          · exact h4 g2 hmem
        · intro k hk
          cases k with
          | zero => simpa using h3
          | succ k2 =>
            simp only [List.getD_cons_succ]
            exact h5 k2 (by omega)
    · rename_i hbeat
      rcases ih (i + 1) maxIdx maxD with
        ⟨h1, h2, h3⟩ | ⟨j, hj, h1, h2, h3, h4, h5⟩
      · left
        refine ⟨h1, h2, ?_⟩
        intro g2 hg2
        rcases List.mem_cons.mp hg2 with rfl | hmem
        · exact not_lt.mp hbeat
        · exact h3 g2 hmem
      · right
        refine ⟨j + 1, by simpa using hj, ?_, ?_, ?_, ?_, ?_⟩
        · rw [h1]
          omega
        · simpa using h2
        · exact h3
        · intro g2 hg2
          rcases List.mem_cons.mp hg2 with rfl | hmem
          · exact le_of_lt (lt_of_le_of_lt (not_lt.mp hbeat) h3)
          · exact h4 g2 hmem
        · intro k hk
          cases k with
          | zero =>
            simp only [List.getD_cons_zero]
            exact lt_of_le_of_lt (not_lt.mp hbeat) h3
          | succ k2 =>
            simp only [List.getD_cons_succ]
            exact h5 k2 (by omega)

/-! ## Claim theorems -/

/-- C10: the threatened-cell check is total at grid boundaries: every king-move
offset whose cell is out of bounds is skipped before the grid is read (in the
embedding, the grid is consulted only under the `IsOnMap` guard), and the check
returns true iff some in-bounds cell within Chebyshev distance 1 of the query
(including the query cell itself) holds a hazard. -/
theorem claim_C10 (wm : GameWorldMap) (p : Point) :
    HasAdjacentGiants wm p = true ↔
      ∃ q, wm.IsOnMap q = true ∧ wm.HasGiant q = true ∧
        ManhattanDistance p q ≤ 1 :=
  hasAdjacentGiants_iff wm p

/-- C10 witness: the characterization instantiated on the 5 x 5 scenario at the
edge-adjacent cell (1, 1). -/
theorem claim_C10_witness :
    HasAdjacentGiants wm5 ⟨1, 1⟩ = true ↔
      ∃ q, wm5.IsOnMap q = true ∧ wm5.HasGiant q = true ∧
        ManhattanDistance ⟨1, 1⟩ q ≤ 1 :=
  claim_C10 wm5 ⟨1, 1⟩

/-- C9: with an empty hazard list the planner returns "WAIT" and leaves the
agent untouched: position unmoved and the strike counter undecremented. -/
theorem claim_C9 (wm : GameWorldMap) (player : Thor) :
    MakeDecision wm [] player = Except.ok ("WAIT", player) := by
  simp [MakeDecision]

/-- C8: the encoder concatenates "S"/"N" for a positive/negative row delta with
"E"/"W" for a positive/negative column delta (vertical letter first), returns
"WAIT" when both deltas are zero (in particular column+1,row-1 encodes to
"NE"), and moving the agent stores the destination as its new position. -/
theorem claim_C8 (player : Thor) (desired : Point) :
    (0 < (desired - player.Position).Y → 0 < (desired - player.Position).X →
      GetSymbolicDirection player.Position desired = "SE") ∧
    (0 < (desired - player.Position).Y → (desired - player.Position).X < 0 →
      GetSymbolicDirection player.Position desired = "SW") ∧
    (0 < (desired - player.Position).Y → (desired - player.Position).X = 0 →
      GetSymbolicDirection player.Position desired = "S") ∧
    ((desired - player.Position).Y < 0 → 0 < (desired - player.Position).X →
      GetSymbolicDirection player.Position desired = "NE") ∧
    ((desired - player.Position).Y < 0 → (desired - player.Position).X < 0 →
      GetSymbolicDirection player.Position desired = "NW") ∧
    ((desired - player.Position).Y < 0 → (desired - player.Position).X = 0 →
      GetSymbolicDirection player.Position desired = "N") ∧
    ((desired - player.Position).Y = 0 → 0 < (desired - player.Position).X →
      GetSymbolicDirection player.Position desired = "E") ∧
    ((desired - player.Position).Y = 0 → (desired - player.Position).X < 0 →
      GetSymbolicDirection player.Position desired = "W") ∧
    ((desired - player.Position).Y = 0 → (desired - player.Position).X = 0 →
      GetSymbolicDirection player.Position desired = "WAIT") ∧
    MoveThor player desired =
      (GetSymbolicDirection player.Position desired,
        { player with Position := desired }) := by
  refine ⟨?_, ?_, ?_, ?_, ?_, ?_, ?_, ?_, ?_, rfl⟩ <;>
  · intro h1 h2
    simp only [GetSymbolicDirection]
    split_ifs <;>
      first
        | rfl
        | decide
        | omega
        | (rename_i hstr; exact absurd hstr (by decide))

/-- C8 witness: the destination one column right and one row up of the agent at
(2, 2) encodes to "NE", the agent's own cell encodes to "WAIT", and the move
stores the destination. -/
theorem claim_C8_witness :
    GetSymbolicDirection thor5.Position ⟨3, 1⟩ = "NE" ∧
      GetSymbolicDirection thor5.Position ⟨2, 2⟩ = "WAIT" ∧
      MoveThor thor5 ⟨3, 1⟩ =
        (GetSymbolicDirection thor5.Position ⟨3, 1⟩,
          { thor5 with Position := ⟨3, 1⟩ }) :=
  ⟨(claim_C8 thor5 ⟨3, 1⟩).2.2.2.1 (by decide) (by decide),
   (claim_C8 thor5 ⟨2, 2⟩).2.2.2.2.2.2.2.2.1 (by decide) (by decide),
   (claim_C8 thor5 ⟨3, 1⟩).2.2.2.2.2.2.2.2.2⟩

/-- C5: for every non-empty hazard list the selector returns the first-listed
hazard attaining the maximum Chebyshev distance from the agent (the recorded
maximum is replaced only on a strictly greater distance, so an equal distance
never replaces the incumbent); in particular the distance profile [3, 5, 5, 2]
selects index 1 with maximum 5. -/
theorem claim_C5 (giants : List Giant) (pos : Point) (hg : giants ≠ []) :
    (findMostDistantAuxP pos giants 0 0 0).1 < giants.length ∧
      FindMostDistantGiant giants pos =
        giants.getD (findMostDistantAuxP pos giants 0 0 0).1 ⟨⟨0, 0⟩⟩ ∧
      (∀ g ∈ giants, ManhattanDistance g.Position pos ≤
        ManhattanDistance
          (giants.getD (findMostDistantAuxP pos giants 0 0 0).1 ⟨⟨0, 0⟩⟩).Position
          pos) ∧
      (∀ k, k < (findMostDistantAuxP pos giants 0 0 0).1 →
        ManhattanDistance (giants.getD k ⟨⟨0, 0⟩⟩).Position pos <
          ManhattanDistance
            (giants.getD (findMostDistantAuxP pos giants 0 0 0).1 ⟨⟨0, 0⟩⟩).Position
            pos) ∧
      findMostDistantAuxP ⟨0, 0⟩ giants4 0 0 0 = (1, 5) := by
  have hlen : 0 < giants.length := List.length_pos.mpr hg
  rcases findMostDistantAuxP_spec pos giants 0 0 0 with
    ⟨h1, h2, h3⟩ | ⟨j, hj, h1, h2, h3, h4, h5⟩
  · refine ⟨by rw [h1]; exact hlen, rfl, ?_, ?_, by decide⟩
    · intro g hgmem
      exact (h3 g hgmem).trans (by
        rw [h1]
        exact manhattanDistance_nonneg _ _)
    · intro k hk
      rw [h1] at hk
      omega
  · refine ⟨by omega, rfl, ?_, ?_, by decide⟩
    · intro g hgmem
      have := h4 g hgmem
      rw [h1, Nat.zero_add, ← h2] at *
      exact this
    · intro k hk
      rw [h1, Nat.zero_add] at hk
      have := h5 k hk
      rw [h1, Nat.zero_add, ← h2]
      exact this

/-- C5 witness: the selector on the distance profile [3, 5, 5, 2] (hazards at
(3,0), (5,0), (0,5), (2,0) seen from the origin). -/
theorem claim_C5_witness :
    giants4 ≠ [] ∧
      (findMostDistantAuxP ⟨0, 0⟩ giants4 0 0 0).1 < giants4.length ∧
      FindMostDistantGiant giants4 ⟨0, 0⟩ =
        giants4.getD (findMostDistantAuxP ⟨0, 0⟩ giants4 0 0 0).1 ⟨⟨0, 0⟩⟩ :=
  ⟨by decide,
   (claim_C5 giants4 ⟨0, 0⟩ (by decide)).1,
   (claim_C5 giants4 ⟨0, 0⟩ (by decide)).2.1⟩

/-- C6: with a non-empty candidate set, if the agent's current cell holds the
unreachable sentinel in the field the planner ignores the field and returns a
candidate minimal in raw Chebyshev distance to the hazard; if the current cell
is finite, it returns a candidate minimal under (field value, tie-broken by
Euclidean distance to the hazard) — Euclidean comparisons are stated via the
order-equivalent integer squared distance. -/
theorem claim_C6 (wm : GameWorldMap) (playerPos giantPos : Point)
    (h : FindAllowedPositions wm playerPos ≠ []) :
    FindNextPosition wm playerPos giantPos (FindAllowedPositions wm playerPos) ∈
        FindAllowedPositions wm playerPos ∧
      ((FindDistancesToPoint wm giantPos).distances playerPos = INF →
        ∀ c ∈ FindAllowedPositions wm playerPos,
          ManhattanDistance
              (FindNextPosition wm playerPos giantPos
                (FindAllowedPositions wm playerPos)) giantPos ≤
            ManhattanDistance c giantPos) ∧
      ((FindDistancesToPoint wm giantPos).distances playerPos ≠ INF →
        ∀ c ∈ FindAllowedPositions wm playerPos,
          (FindDistancesToPoint wm giantPos).distances
              (FindNextPosition wm playerPos giantPos
                (FindAllowedPositions wm playerPos)) <
            (FindDistancesToPoint wm giantPos).distances c ∨
          ((FindDistancesToPoint wm giantPos).distances
              (FindNextPosition wm playerPos giantPos
                (FindAllowedPositions wm playerPos)) =
            (FindDistancesToPoint wm giantPos).distances c ∧
            EuclidSqDistance
                (FindNextPosition wm playerPos giantPos
                  (FindAllowedPositions wm playerPos)) giantPos ≤
              EuclidSqDistance c giantPos)) := by
  refine ⟨findNextPosition_mem wm playerPos giantPos _ h, ?_, ?_⟩
  · intro hD c hc
    have hres :
        FindNextPosition wm playerPos giantPos (FindAllowedPositions wm playerPos) =
          (sortBy (ltCheb giantPos) (FindAllowedPositions wm playerPos)).headD
            ⟨0, 0⟩ := by
      unfold FindNextPosition
      dsimp only
      rw [if_neg (by simp [hD])]
    have hmin := sortBy_headD_min (ltCheb giantPos) (ltCheb_asymm giantPos)
      (ltCheb_negtrans giantPos) (FindAllowedPositions wm playerPos) ⟨0, 0⟩ c hc
    rw [← hres] at hmin
    simp only [ltCheb, decide_eq_false_iff_not, not_lt] at hmin
    exact hmin
  · intro hD c hc
    have hres :
        FindNextPosition wm playerPos giantPos (FindAllowedPositions wm playerPos) =
          (sortBy (ltFin (FindDistancesToPoint wm giantPos).distances giantPos)
              (FindAllowedPositions wm playerPos)).headD ⟨0, 0⟩ := by
      unfold FindNextPosition
      dsimp only
      rw [if_pos hD]
    have hmin := sortBy_headD_min
      (ltFin (FindDistancesToPoint wm giantPos).distances giantPos)
      (ltFin_asymm _ giantPos) (ltFin_negtrans _ giantPos)
      (FindAllowedPositions wm playerPos) ⟨0, 0⟩ c hc
    rw [← hres] at hmin
    simp only [ltFin] at hmin
    split_ifs at hmin with he
    · simp only [decide_eq_false_iff_not, not_lt] at hmin
      exact Or.inr ⟨he.symm, hmin⟩
    · simp only [decide_eq_false_iff_not, not_lt] at hmin
      exact Or.inl (lt_of_le_of_ne hmin fun h2 => he h2.symm)

/-- C6 witness: the 5 x 5 scenario has a non-empty candidate set around (2, 2),
and the selection facts instantiate there for the hazard at (0, 0). -/
theorem claim_C6_witness :
    FindAllowedPositions wm5 ⟨2, 2⟩ ≠ [] ∧
      FindNextPosition wm5 ⟨2, 2⟩ ⟨0, 0⟩ (FindAllowedPositions wm5 ⟨2, 2⟩) ∈
        FindAllowedPositions wm5 ⟨2, 2⟩ :=
  ⟨by decide, (claim_C6 wm5 ⟨2, 2⟩ ⟨0, 0⟩ (by decide)).1⟩

/-- C2 counterexample: the claim says threatened cells never propagate the
search, but in the 5 x 5 scenario the threatened cell (0, 1) (Chebyshev
distance 1 from the hazard at (0, 0)) is expanded by the BFS — it propagates
the search, which is how (0, 2) obtains its finite label 2 (the only cell with
label 1 in this run is (0, 1) itself). -/
theorem claim_C2_counterexample :
    (⟨0, 1⟩ : Point) ∈ (FindDistancesToPoint wm5 ⟨0, 0⟩).expanded ∧
      HasAdjacentGiants wm5 ⟨0, 1⟩ = true ∧
      (FindDistancesToPoint wm5 ⟨0, 0⟩).distances ⟨0, 2⟩ = 2 :=
  ⟨by decide, by decide, by decide⟩

/-- C2 (amended): every newly discovered in-bounds unvisited neighbor of an
expanded cell is labeled parent-distance + 1 and marked visited unconditionally
(no threat test guards this step); a discovered cell is enqueued for further
expansion only if it is not threatened (a threatened cell is never added to the
queue); hence the only threatened cells that ever propagate the search are the
target's immediate neighbors, which the initialization loop expands directly
without going through the queue. -/
theorem claim_C2 (wm : GameWorldMap) (t : Point) :
    (∀ (s : BfsState) (p dir : Point), s.visited p = true →
        dir ∈ GetPossibleDirections → wm.IsOnMap (p + dir) = true →
        s.visited (p + dir) = false →
        (findToVisit wm s p).visited (p + dir) = true ∧
          (findToVisit wm s p).distances (p + dir) = s.distances p + 1) ∧
      (∀ (s : BfsState) (p c : Point), HasAdjacentGiants wm c = true →
        (c ∈ (findToVisit wm s p).toVisit ↔ c ∈ s.toVisit)) ∧
      (∀ x ∈ (FindDistancesToPoint wm t).expanded,
        HasAdjacentGiants wm x = false ∨ ManhattanDistance x t ≤ 1) :=
  ⟨fun s p dir hp hdir hmap hunvis =>
      findToVisit_discover wm s p dir hp hdir hmap hunvis,
   fun s p c hc => findToVisit_threatened_toVisit wm s p c hc,
   findDistances_expanded wm t⟩

/-- C2 witness: in the 5 x 5 scenario, the initialization state has (1, 2)
visited and (2, 2) not; expanding (1, 2) labels (2, 2) with its distance + 1
and marks it visited; and the expanded cell (0, 1) satisfies the
characterization (it is a neighbor of the target). -/
theorem claim_C2_witness :
    (bfsInit wm5 ⟨0, 0⟩).visited ⟨1, 2⟩ = true ∧
      (⟨1, 0⟩ : Point) ∈ GetPossibleDirections ∧
      wm5.IsOnMap (⟨1, 2⟩ + ⟨1, 0⟩ : Point) = true ∧
      (bfsInit wm5 ⟨0, 0⟩).visited (⟨1, 2⟩ + ⟨1, 0⟩ : Point) = false ∧
      ((findToVisit wm5 (bfsInit wm5 ⟨0, 0⟩) ⟨1, 2⟩).visited
          (⟨1, 2⟩ + ⟨1, 0⟩ : Point) = true ∧
        (findToVisit wm5 (bfsInit wm5 ⟨0, 0⟩) ⟨1, 2⟩).distances
            (⟨1, 2⟩ + ⟨1, 0⟩ : Point) =
          (bfsInit wm5 ⟨0, 0⟩).distances ⟨1, 2⟩ + 1) ∧
      (⟨0, 1⟩ : Point) ∈ (FindDistancesToPoint wm5 ⟨0, 0⟩).expanded ∧
      (HasAdjacentGiants wm5 ⟨0, 1⟩ = false ∨
        ManhattanDistance ⟨0, 1⟩ ⟨0, 0⟩ ≤ 1) :=
  ⟨by decide, by decide, by decide, by decide,
   (claim_C2 wm5 ⟨0, 0⟩).1 (bfsInit wm5 ⟨0, 0⟩) ⟨1, 2⟩ ⟨1, 0⟩
     (by decide) (by decide) (by decide) (by decide),
   by decide,
   (claim_C2 wm5 ⟨0, 0⟩).2.2 ⟨0, 1⟩ (by decide)⟩

/-- C3 (code-bug evaluation): in the 5 x 5 scenario with the hazard at (0, 0),
the BFS rooted at (0, 0) runs to exhaustion (empty final frontier) and labels
the root 0, but labels the in-bounds immediate king neighbor (1, 0) — whose
shortest masked hop count from the root is 1 — with 2: the initialization loop
expands the neighbor (0, 1) first, which discovers (1, 0) at distance 2 and
marks it visited, so the loop then skips (1, 0)'s own distance-1
initialization. -/
theorem claim_C3 :
    (FindDistancesToPoint wm5 ⟨0, 0⟩).distances ⟨0, 0⟩ = 0 ∧
      (FindDistancesToPoint wm5 ⟨0, 0⟩).distances ⟨1, 0⟩ = 2 ∧
      ManhattanDistance ⟨0, 0⟩ ⟨1, 0⟩ = 1 ∧
      wm5.IsOnMap ⟨1, 0⟩ = true ∧
      (FindDistancesToPoint wm5 ⟨0, 0⟩).toVisit = [] :=
  ⟨by decide, by decide, by decide, by decide, by decide⟩

/-- C7 counterexample: in the 5 x 5 end-to-end scenario the emitted token is
"W", not "NW" (the cell (1, 1) is within Chebyshev distance 1 of the hazard at
(0, 0), so it is never a candidate destination). -/
theorem claim_C7_counterexample :
    MakeDecision wm5 giants5 thor5 =
      Except.ok ("W",
        { Position := ⟨1, 2⟩, StrikeRadius := 1, StrikesLeft := 2 }) ∧
      ("W" : String) ≠ "NW" :=
  ⟨by decide, by decide⟩

/-- C7 (amended): in the 5 x 5 scenario the selector picks the only hazard
(0, 0); it is outside radius 1 so no special action fires; (1, 1) is threatened
and is not in the candidate set; and the planner moves the agent to (1, 2),
emitting "W". -/
theorem claim_C7 :
    FindMostDistantGiant giants5 thor5.Position = ⟨⟨0, 0⟩⟩ ∧
      thor5.CanStrike ⟨0, 0⟩ = false ∧
      HasAdjacentGiants wm5 ⟨1, 1⟩ = true ∧
      (⟨1, 1⟩ : Point) ∉ FindAllowedPositions wm5 thor5.Position ∧
      MakeDecision wm5 giants5 thor5 =
        Except.ok ("W",
          { Position := ⟨1, 2⟩, StrikeRadius := 1, StrikesLeft := 2 }) :=
  ⟨by decide, by decide, by decide, by decide, by decide⟩

/-- C1: whenever the planner returns a movement token (any token other than the
special-action token "STRIKE", with a non-empty hazard list), the agent's new
position is a king-move destination of its old position, is in grid bounds, and
is not within Chebyshev distance 1 of any hazard cell placed on the grid. -/
theorem claim_C1 (wm : GameWorldMap) (giants : List Giant) (player : Thor)
    (tok : String) (player2 : Thor)
    (hg : giants ≠ [])
    (hok : MakeDecision wm giants player = Except.ok (tok, player2))
    (hns : tok ≠ "STRIKE") :
    wm.IsOnMap player2.Position = true ∧
      ManhattanDistance player.Position player2.Position ≤ 1 ∧
      ∀ q, wm.IsOnMap q = true → wm.HasGiant q = true →
        ¬(ManhattanDistance player2.Position q ≤ 1) := by
  unfold MakeDecision at hok
  rw [if_neg hg] at hok
  dsimp only at hok
  by_cases hA : FindAllowedPositions wm player.Position = []
  · rw [if_pos hA] at hok
    unfold Thor.Strike at hok
    by_cases hs : player.StrikesLeft ≤ 0
    · rw [if_pos hs] at hok
      simp [Except.map] at hok
    · rw [if_neg hs] at hok
      simp only [Except.map, Except.ok.injEq, Prod.mk.injEq] at hok
      exact absurd hok.1.symm hns
  · rw [if_neg hA] at hok
    by_cases hCS :
        player.CanStrike (FindMostDistantGiant giants player.Position).Position =
          true
    · rw [if_pos hCS] at hok
      unfold Thor.Strike at hok
      by_cases hs : player.StrikesLeft ≤ 0
      · rw [if_pos hs] at hok
        simp [Except.map] at hok
      · rw [if_neg hs] at hok
        simp only [Except.map, Except.ok.injEq, Prod.mk.injEq] at hok
        exact absurd hok.1.symm hns
    · rw [if_neg hCS] at hok
      simp only [Except.ok.injEq] at hok
      unfold MoveThor at hok
      rw [Prod.mk.injEq] at hok
      obtain ⟨-, hpos⟩ := hok
      have hmem := findNextPosition_mem wm player.Position
        (FindMostDistantGiant giants player.Position).Position
        (FindAllowedPositions wm player.Position) hA
      obtain ⟨⟨dir, hdir, heq⟩, hmap, hsafe⟩ :=
        (mem_FindAllowedPositions wm player.Position _).mp hmem
      have hp2 : player2.Position = FindNextPosition wm player.Position
          (FindMostDistantGiant giants player.Position).Position
          (FindAllowedPositions wm player.Position) := by
        rw [← hpos]
      refine ⟨?_, ?_, ?_⟩
      · rw [hp2]
        exact hmap
      · rw [hp2, heq]
        exact (cheb_le_one_iff _ _).mpr ⟨dir, hdir, rfl⟩
      · intro q hq hgq hle
        have hadj : HasAdjacentGiants wm player2.Position = true :=
          (hasAdjacentGiants_iff wm _).mpr ⟨q, hq, hgq, hle⟩
        rw [hp2, hsafe] at hadj
        simp at hadj

/-- C1 witness: the safety facts instantiated on the 5 x 5 end-to-end run,
whose decision is the movement token "W" to (1, 2). -/
theorem claim_C1_witness :
    giants5 ≠ [] ∧
      MakeDecision wm5 giants5 thor5 =
        Except.ok ("W",
          { Position := ⟨1, 2⟩, StrikeRadius := 1, StrikesLeft := 2 }) ∧
      ("W" : String) ≠ "STRIKE" ∧
      (wm5.IsOnMap (⟨1, 2⟩ : Point) = true ∧
        ManhattanDistance thor5.Position ⟨1, 2⟩ ≤ 1 ∧
        ∀ q, wm5.IsOnMap q = true → wm5.HasGiant q = true →
          ¬(ManhattanDistance ⟨1, 2⟩ q ≤ 1)) :=
  ⟨by decide, by decide, by decide,
   claim_C1 wm5 giants5 thor5 "W" ⟨⟨1, 2⟩, 1, 2⟩
     (by decide) (by decide) (by decide)⟩

/-- C4: the special action decrements the counter by exactly 1 when it is
positive and fails with the fatal "Not enough charges!" error when the counter
is 0 (never a silent no-op); no decision outcome ever increases the counter or
drives it below 0; and with a non-empty hazard list and an empty candidate set
the planner emits the special-action token under the same decrement/failure
rule. -/
theorem claim_C4 (wm : GameWorldMap) (giants : List Giant) (player : Thor) :
    (0 < player.StrikesLeft →
      player.Strike =
        Except.ok { player with StrikesLeft := player.StrikesLeft - 1 }) ∧
      (player.StrikesLeft = 0 →
        player.Strike = Except.error "Not enough charges!") ∧
      (∀ tok player2, MakeDecision wm giants player = Except.ok (tok, player2) →
        player2.StrikesLeft ≤ player.StrikesLeft ∧
          (0 ≤ player.StrikesLeft → 0 ≤ player2.StrikesLeft)) ∧
      (giants ≠ [] → FindAllowedPositions wm player.Position = [] →
        (0 < player.StrikesLeft →
          MakeDecision wm giants player =
            Except.ok ("STRIKE",
              { player with StrikesLeft := player.StrikesLeft - 1 })) ∧
          (player.StrikesLeft = 0 →
            MakeDecision wm giants player =
              Except.error "Not enough charges!")) := by
  refine ⟨?_, ?_, ?_, ?_⟩
  · intro h
    unfold Thor.Strike
    rw [if_neg (by omega)]
  · intro h
    unfold Thor.Strike
    rw [if_pos (by omega)]
  · intro tok player2 hok
    unfold MakeDecision at hok
    by_cases hg : giants = []
    · rw [if_pos hg] at hok
      simp only [Except.ok.injEq, Prod.mk.injEq] at hok
      rw [← hok.2]
      exact ⟨le_refl _, fun h => h⟩
    · rw [if_neg hg] at hok
      dsimp only at hok
      by_cases hA : FindAllowedPositions wm player.Position = []
      · rw [if_pos hA] at hok
        unfold Thor.Strike at hok
        by_cases hs : player.StrikesLeft ≤ 0
        · rw [if_pos hs] at hok
          simp [Except.map] at hok
        · rw [if_neg hs] at hok
          simp only [Except.map, Except.ok.injEq, Prod.mk.injEq] at hok
          rw [← hok.2]
          constructor
          · show player.StrikesLeft - 1 ≤ player.StrikesLeft
            omega
          · intro h2
            show 0 ≤ player.StrikesLeft - 1
            omega
      · rw [if_neg hA] at hok
        by_cases hCS :
            player.CanStrike
                (FindMostDistantGiant giants player.Position).Position = true
        · rw [if_pos hCS] at hok
          unfold Thor.Strike at hok
          by_cases hs : player.StrikesLeft ≤ 0
          · rw [if_pos hs] at hok
            simp [Except.map] at hok
          · rw [if_neg hs] at hok
            simp only [Except.map, Except.ok.injEq, Prod.mk.injEq] at hok
            rw [← hok.2]
            constructor
            · show player.StrikesLeft - 1 ≤ player.StrikesLeft
              omega
            · intro h2
              show 0 ≤ player.StrikesLeft - 1
              omega
        · rw [if_neg hCS] at hok
          simp only [Except.ok.injEq] at hok
          unfold MoveThor at hok
          rw [Prod.mk.injEq] at hok
          rw [← hok.2]
          exact ⟨le_refl _, fun h => h⟩
  · intro hg hA
    constructor
    · intro h
      unfold MakeDecision
      rw [if_neg hg]
      dsimp only
      rw [if_pos hA]
      unfold Thor.Strike
      rw [if_neg (by omega)]
      rfl
    · intro h
      unfold MakeDecision
      rw [if_neg hg]
      dsimp only
      rw [if_pos hA]
      unfold Thor.Strike
      rw [if_pos (by omega)]
      rfl

/-- C4 witness: the boxed-in 3 x 3 scenario (giant at the center threatens the
whole grid): with 2 charges the decision is "STRIKE" with the counter
decremented to 1; with 0 charges the decision is the fatal error. -/
theorem claim_C4_witness :
    giantsBox ≠ [] ∧
      FindAllowedPositions wmBox thorBox.Position = [] ∧
      0 < thorBox.StrikesLeft ∧
      MakeDecision wmBox giantsBox thorBox =
        Except.ok ("STRIKE",
          { thorBox with StrikesLeft := thorBox.StrikesLeft - 1 }) ∧
      MakeDecision wmBox giantsBox { thorBox with StrikesLeft := 0 } =
        Except.error "Not enough charges!" :=
  ⟨by decide, by decide, by decide,
   ((claim_C4 wmBox giantsBox thorBox).2.2.2 (by decide) (by decide)).1
     (by decide),
   ((claim_C4 wmBox giantsBox { thorBox with StrikesLeft := 0 }).2.2.2
     (by decide) (by decide)).2 (by decide)⟩

end PowerOfThor
